import Mathlib

set_option maxHeartbeats 1000000
set_option maxRecDepth 4000

/-!
Shallow embedding of the mtree parser, translated from the Rust sources
src/lib.rs, src/parser.rs and src/util.rs.  Bytes are modelled as Nat
values (the ASCII code), byte strings as List Nat, and machine integers
as Nat with an explicit bound 2 ^ w wherever the source uses checked
arithmetic.  Fallible functions return Except MError.
-/

/-- ASCII bytes of a string literal.  Every string used in this file is
plain ASCII, so the code points coincide with the UTF-8 bytes of the
Rust source. -/
def asc (s : String) : List Nat := s.toList.map Char.toNat

/-- Split a byte string at the first occurrence of a separator byte,
returning the parts before and after it, or none when the separator is
absent.  Building block for the Rust iterators split and splitn. -/
def splitFirst (sep : Nat) : List Nat → Option (List Nat × List Nat)
  | [] => none
  | b :: t =>
    if b = sep then some ([], t)
    else
      match splitFirst sep t with
      | none => none
      | some (a, r) => some (b :: a, r)

/-- Rust slice::splitn(n, sep): at most n fields, the last one keeping
any further separators verbatim. -/
def splitnB (sep : Nat) : Nat → List Nat → List (List Nat)
  | 0, _ => []
  | 1, l => [l]
  | n + 2, l =>
    match splitFirst sep l with
    | none => [l]
    | some (a, r) => a :: splitnB sep (n + 1) r

/-- Rust slice::split(sep): all fields, empty fields kept (the caller in
MTreeLine::from_bytes filters the empty ones). -/
def splitOnByte (sep : Nat) : List Nat → List (List Nat)
  | [] => [[]]
  | b :: t =>
    if b = sep then [] :: splitOnByte sep t
    else
      match splitOnByte sep t with
      | [] => [[b]]
      | c :: cs => (b :: c) :: cs

/-- The parser error type.  The source ParserError is a formatted string;
here each format site becomes one constructor carrying the interpolated
data, so that a theorem can state exactly which error is produced. -/
inductive MError where
  /-- could not parse input as a number, problem at char idx -/
  | decBadChar (input : List Nat) (idx : Nat)
  /-- could not parse integer - shift overflow -/
  | decShiftOverflow
  /-- could not parse integer - addition overflow -/
  | decAddOverflow
  /-- input length must be twice the vec size, but it is not -/
  | hexBadLen (len : Nat) (size : Nat) (input : List Nat)
  /-- char at position pos in input is not hex -/
  | hexBadChar (pos : Nat) (input : List Nat)
  /-- could not parse input as a number, must be 32 chars (u128 hex) -/
  | hexU128BadLen (input : List Nat)
  /-- could not parse input as a number, problem at char idx (u128 hex) -/
  | hexU128BadChar (input : List Nat) (idx : Nat)
  /-- couldn't parse time from input -/
  | badTime (input : List Nat)
  /-- field requires a parameter, none found -/
  | missingValue (field : List Nat)
  /-- key is not a valid parameter key (in input) -/
  | unknownKey (key : List Nat) (input : List Nat)
  /-- input is not a special command -/
  | unknownSpecial (input : List Nat)
  /-- input is not a valid format -/
  | unknownFormat (input : List Nat)
  /-- input is not a valid file type -/
  | unknownType (input : List Nat)
  /-- mode value must be 3 octal chars, found input -/
  | badMode (input : List Nat)
  /-- could not read format from device input -/
  | deviceNoFormat (input : List Nat)
  /-- could not read major field from device input -/
  | deviceNoMajor (input : List Nat)
  /-- could not read minor field from device input -/
  | deviceNoMinor (input : List Nat)
deriving DecidableEq

/-- util.rs from_dec_ch: decimal digit decode of one byte. -/
def from_dec_ch (i : Nat) : Option Nat :=
  if 48 ≤ i ∧ i ≤ 57 then some (i - 48) else none

/-- util.rs from_hex_ch: hex digit decode of one byte. -/
def from_hex_ch (i : Nat) : Option Nat :=
  if 48 ≤ i ∧ i ≤ 57 then some (i - 48)
  else if 97 ≤ i ∧ i ≤ 102 then some (i - 97 + 10)
  else if 65 ≤ i ∧ i ≤ 70 then some (i - 65 + 10)
  else none

/-- util.rs from_oct_ch: octal digit decode of one byte. -/
def from_oct_ch (i : Nat) : Option Nat :=
  if 48 ≤ i ∧ i ≤ 55 then some (i - 48) else none

/-- Loop body of impl_FromDec_uint: left-to-right accumulation with
checked multiply and add against the width bound 2 ^ w.  The full input
is carried along because the non-digit error message quotes it. -/
def fromDecGo (w : Nat) (input : List Nat) : List Nat → Nat → Nat → Except MError Nat
  | [], _, acc => .ok acc
  | b :: rest, idx, acc =>
    match from_dec_ch b with
    | none => .error (.decBadChar input idx)
    | some d =>
      if acc * 10 < 2 ^ w then
        if acc * 10 + d < 2 ^ w then fromDecGo w input rest (idx + 1) (acc * 10 + d)
        else .error .decAddOverflow
      else .error .decShiftOverflow

/-- impl_FromDec_uint, parametrised by the bit width the macro is
instantiated at (8, 16, 32 and 64 in the source). -/
def from_dec (w : Nat) (input : List Nat) : Except MError Nat :=
  fromDecGo w input input 0 0

/-- u64::from_dec. -/
def u64_from_dec : List Nat → Except MError Nat := from_dec 64

/-- u32::from_dec. -/
def u32_from_dec : List Nat → Except MError Nat := from_dec 32

/-- Pair loop of impl_FromHex_arr and impl_FromHex_newtype: chunks(2)
with the chunk index idx, decoding two nibbles per output byte.  The
caller has already checked the input length is even (2 times the array
size), so the singleton-chunk case is unreachable there. -/
def hexPairs (input : List Nat) : List Nat → Nat → Except MError (List Nat)
  | [], _ => .ok []
  | c0 :: c1 :: rest, idx =>
    match from_hex_ch c0 with
    | none => .error (.hexBadChar (2 * idx) input)
    | some hi =>
      match from_hex_ch c1 with
      | none => .error (.hexBadChar (2 * idx + 1) input)
      | some lo => (hexPairs input rest (idx + 1)).map (fun t => (hi * 16 + lo) :: t)
  | [_], _ => .ok []

/-- impl_FromHex_arr / impl_FromHex_newtype instantiated at array size
size (16, 20, 32, 48 and 64 in the source): exact length check, then
two hex nibbles per output byte. -/
def hexDecode (size : Nat) (input : List Nat) : Except MError (List Nat) :=
  if input.length = 2 * size then hexPairs input input 0
  else .error (.hexBadLen input.length size input)

/-- Accumulation loop of FromHex for u128.  The arithmetic is unchecked
in the source; no wrap can occur since 32 nibbles fit exactly in 128
bits. -/
def u128HexGo (input : List Nat) : List Nat → Nat → Nat → Except MError Nat
  | [], _, acc => .ok acc
  | b :: rest, idx, acc =>
    match from_hex_ch b with
    | none => .error (.hexU128BadChar input idx)
    | some v => u128HexGo input rest (idx + 1) (acc * 16 + v)

/-- FromHex for u128: length must be exactly 32, then accumulate. -/
def u128_from_hex (input : List Nat) : Except MError Nat :=
  if input.length = 32 then u128HexGo input input 0 0
  else .error (.hexU128BadLen input)

/-- Model of std Duration: seconds and nanoseconds.  Duration::new
normalises nanoseconds above one billion into the seconds (the u64
overflow panic of std on that carry is unreachable from the inputs the
parser produces, nanos being a u32). -/
structure Duration where
  secs : Nat
  nanos : Nat
deriving DecidableEq

def Duration.new (s n : Nat) : Duration :=
  ⟨s + n / 1000000000, n % 1000000000⟩

/-- util.rs parse_time: split once on the dot, seconds as u64, the
fractional part as u32 nanoseconds. -/
def parse_time (input : List Nat) : Except MError Duration :=
  let parts := splitnB 46 2 input
  match parts.head? with
  | none => .error (.badTime input)
  | some sec =>
    match u64_from_dec sec with
    | .error e => .error e
    | .ok s =>
      match parts.get? 1 with
      | none => .error (.badTime input)
      | some nan =>
        match u32_from_dec nan with
        | .error e => .error e
        | .ok n => .ok (Duration.new s n)

/-- parser.rs FileMode: the three permission triples.  Perms is a u8
bitflags newtype in the source; its raw bits are carried here as a Nat
in 0..8 (READ = 4, WRITE = 2, EXECUTE = 1). -/
structure FileMode where
  owner : Nat
  group : Nat
  other : Nat
deriving DecidableEq

/-- FileMode::from_bytes inner from_bytes_opt: exactly 3 bytes, each an
octal digit. -/
def fileModeOpt (input : List Nat) : Option FileMode :=
  match input with
  | [a, b, c] => do
    let o ← from_oct_ch a
    let g ← from_oct_ch b
    let t ← from_oct_ch c
    pure ⟨o, g, t⟩
  | _ => none

/-- FileMode::from_bytes: octal only; anything else is an error quoting
the input. -/
def FileMode.from_bytes (input : List Nat) : Except MError FileMode :=
  match fileModeOpt input with
  | some m => .ok m
  | none => .error (.badMode input)

/-- Display for Perms: one of r/w/x or a dash per bit, by the bitflags
contains test (bits AND flag = flag). -/
def displayPerms (bits : Nat) : List Nat :=
  [if bits &&& 4 = 4 then 114 else 45,
   if bits &&& 2 = 2 then 119 else 45,
   if bits &&& 1 = 1 then 120 else 45]

/-- Display for FileMode: the three Perms displays concatenated. -/
def displayFileMode (m : FileMode) : List Nat :=
  displayPerms m.owner ++ displayPerms m.group ++ displayPerms m.other

/-- Modelled from the spec: interpretation of one canonical symbolic
rwx-style triple back to permission bits.  The source has no symbolic
mode parser (FileMode::from_bytes rejects symbolic input), so this
inverse of the Display output follows the words of the spec. -/
def permBitsOfSymbolic : List Nat → Option Nat
  | [r, w, x] => do
    let rb ← if r = 114 then some 4 else if r = 45 then some 0 else none
    let wb ← if w = 119 then some 2 else if w = 45 then some 0 else none
    let xb ← if x = 120 then some 1 else if x = 45 then some 0 else none
    pure (rb + wb + xb)
  | _ => none

/-- Modelled from the spec: interpretation of the 9-character symbolic
display of a FileMode back to the three permission bit sets. -/
def modeOfSymbolic : List Nat → Option FileMode
  | [a, b, c, d, e, f, g, h, i] => do
    let ow ← permBitsOfSymbolic [a, b, c]
    let gr ← permBitsOfSymbolic [d, e, f]
    let ot ← permBitsOfSymbolic [g, h, i]
    pure ⟨ow, gr, ot⟩
  | _ => none

/-- parser.rs Type: the file type enum (named FType here since Type is
reserved in Lean). -/
inductive FType where
  | blockDevice
  | characterDevice
  | directory
  | fifo
  | file
  | symbolicLink
  | socket
deriving DecidableEq

/-- Type::from_bytes. -/
def FType.from_bytes (input : List Nat) : Except MError FType :=
  if input = asc "block" then .ok .blockDevice
  else if input = asc "char" then .ok .characterDevice
  else if input = asc "dir" then .ok .directory
  else if input = asc "fifo" then .ok .fifo
  else if input = asc "file" then .ok .file
  else if input = asc "link" then .ok .symbolicLink
  else if input = asc "socket" then .ok .socket
  else .error (.unknownType input)

/-- parser.rs Format: the device format enum. -/
inductive Format where
  | native | bsd386 | bsd4 | bsdOs | freeBsd | hpux | isc | linux
  | netBsd | osf1 | sco | solaris | sunOs | svr3 | svr4 | ultrix
deriving DecidableEq

/-- Format::from_bytes. -/
def Format.from_bytes (input : List Nat) : Except MError Format :=
  if input = asc "native" then .ok .native
  else if input = asc "386bsd" then .ok .bsd386
  else if input = asc "4bsd" then .ok .bsd4
  else if input = asc "bsdos" then .ok .bsdOs
  else if input = asc "freebsd" then .ok .freeBsd
  else if input = asc "hpux" then .ok .hpux
  else if input = asc "isc" then .ok .isc
  else if input = asc "linux" then .ok .linux
  else if input = asc "netbsd" then .ok .netBsd
  else if input = asc "osf1" then .ok .osf1
  else if input = asc "sco" then .ok .sco
  else if input = asc "solaris" then .ok .solaris
  else if input = asc "sunos" then .ok .sunOs
  else if input = asc "svr3" then .ok .svr3
  else if input = asc "svr4" then .ok .svr4
  else if input = asc "ultrix" then .ok .ultrix
  else .error (.unknownFormat input)

/-- parser.rs DeviceRef and lib.rs Device carry the same data (the
former borrows, the latter owns); borrowing is meaningless in the
model, so a single structure stands for both and to_device is the
identity conversion. -/
structure MDevice where
  format : Format
  major : List Nat
  minor : List Nat
  subunit : Option (List Nat)
deriving DecidableEq

/-- DeviceRef::from_bytes: splitn(4, comma); format, major and minor
are required, subunit optional. -/
def MDevice.from_bytes (input : List Nat) : Except MError MDevice :=
  let fs := splitnB 44 4 input
  match fs.head? with
  | none => .error (.deviceNoFormat input)
  | some f =>
    match Format.from_bytes f with
    | .error e => .error e
    | .ok fmt =>
      match fs.get? 1 with
      | none => .error (.deviceNoMajor input)
      | some maj =>
        match fs.get? 2 with
        | none => .error (.deviceNoMinor input)
        | some mn => .ok ⟨fmt, maj, mn, fs.get? 3⟩

/-- parser.rs Keyword: one decoded key or key=value token. -/
inductive Keyword where
  | checksum (v : Nat)
  | deviceRef (d : MDevice)
  | contents (v : List Nat)
  | flags (v : List Nat)
  | gid (v : Nat)
  | gname (v : List Nat)
  | ignore
  | inode (v : Nat)
  | link (v : List Nat)
  | md5 (v : Nat)
  | mode (m : FileMode)
  | nlink (v : Nat)
  | noChange
  | optional
  | residentDeviceRef (d : MDevice)
  | rmd160 (v : List Nat)
  | sha1 (v : List Nat)
  | sha256 (v : List Nat)
  | sha384 (v : List Nat)
  | sha512 (v : List Nat)
  | size (v : Nat)
  | time (d : Duration)
  | ftype (t : FType)
  | uid (v : Nat)
  | uname (v : List Nat)
deriving DecidableEq

/-- The next helper inside Keyword::from_bytes: a required value after
the equals sign, or an error naming the field. -/
def reqVal (field : List Nat) (v : Option (List Nat)) : Except MError (List Nat) :=
  match v with
  | some x => .ok x
  | none => .error (.missingValue field)

/-- input.splitn(2, equals): the key and, when an equals sign is
present, the remainder after it. -/
def keyOf (input : List Nat) : List Nat × Option (List Nat) :=
  match splitFirst 61 input with
  | none => (input, none)
  | some (k, v) => (k, some v)

/-- Keyword::from_bytes: dispatch on the key, decoding the value with
the matching primitive decoder.  Unknown keys are an error naming the
key and the whole token. -/
def Keyword.from_bytes (input : List Nat) : Except MError Keyword :=
  let kv := keyOf input
  let key := kv.1
  let val := kv.2
  if key = asc "cksum" then do
    let v ← reqVal (asc "cksum") val
    let n ← u64_from_dec v
    pure (.checksum n)
  else if key = asc "device" then do
    let v ← reqVal (asc "devices") val
    let d ← MDevice.from_bytes v
    pure (.deviceRef d)
  else if key = asc "contents" then do
    let v ← reqVal (asc "contents") val
    pure (.contents v)
  else if key = asc "flags" then do
    let v ← reqVal (asc "flags") val
    pure (.flags v)
  else if key = asc "gid" then do
    let v ← reqVal (asc "gid") val
    let n ← u64_from_dec v
    pure (.gid n)
  else if key = asc "gname" then do
    let v ← reqVal (asc "gname") val
    pure (.gname v)
  else if key = asc "ignore" then pure .ignore
  else if key = asc "inode" then do
    let v ← reqVal (asc "inode") val
    let n ← u64_from_dec v
    pure (.inode n)
  else if key = asc "link" then do
    let v ← reqVal (asc "link") val
    pure (.link v)
  else if key = asc "md5" ∨ key = asc "md5digest" then do
    let v ← reqVal (asc "md5|md5digest") val
    let n ← u128_from_hex v
    pure (.md5 n)
  else if key = asc "mode" then do
    let v ← reqVal (asc "mode") val
    let m ← FileMode.from_bytes v
    pure (.mode m)
  else if key = asc "nlink" then do
    let v ← reqVal (asc "nlink") val
    let n ← u64_from_dec v
    pure (.nlink n)
  else if key = asc "nochange" then pure .noChange
  else if key = asc "optional" then pure .optional
  else if key = asc "resdevice" then do
    let v ← reqVal (asc "resdevice") val
    let d ← MDevice.from_bytes v
    pure (.residentDeviceRef d)
  else if key = asc "rmd160" ∨ key = asc "rmd160digest" ∨ key = asc "ripemd160digest" then do
    let v ← reqVal (asc "rmd160|rmd160digest|ripemd160digest") val
    let a ← hexDecode 20 v
    pure (.rmd160 a)
  else if key = asc "sha1" ∨ key = asc "sha1digest" then do
    let v ← reqVal (asc "sha1|sha1digest") val
    let a ← hexDecode 20 v
    pure (.sha1 a)
  else if key = asc "sha256" ∨ key = asc "sha256digest" then do
    let v ← reqVal (asc "sha256|sha256digest") val
    let a ← hexDecode 32 v
    pure (.sha256 a)
  else if key = asc "sha384" ∨ key = asc "sha384digest" then do
    let v ← reqVal (asc "sha384|sha384digest") val
    let a ← hexDecode 48 v
    pure (.sha384 a)
  else if key = asc "sha512" ∨ key = asc "sha512digest" then do
    let v ← reqVal (asc "sha512|sha512digest") val
    let a ← hexDecode 64 v
    pure (.sha512 a)
  else if key = asc "size" then do
    let v ← reqVal (asc "size") val
    let n ← u64_from_dec v
    pure (.size n)
  else if key = asc "time" then do
    let v ← reqVal (asc "time") val
    let d ← parse_time v
    pure (.time d)
  else if key = asc "type" then do
    let v ← reqVal (asc "type") val
    let t ← FType.from_bytes v
    pure (.ftype t)
  else if key = asc "uid" then do
    let v ← reqVal (asc "uid") val
    let n ← u64_from_dec v
    pure (.uid n)
  else if key = asc "uname" then do
    let v ← reqVal (asc "uname") val
    pure (.uname v)
  else .error (.unknownKey key input)

/-- parser.rs SpecialKind. -/
inductive SpecialKind where
  | set
  | unset
deriving DecidableEq

/-- SpecialKind::from_bytes. -/
def SpecialKind.from_bytes (input : List Nat) : Except MError SpecialKind :=
  if input = asc "set" then .ok .set
  else if input = asc "unset" then .ok .unset
  else .error (.unknownSpecial input)

/-- parser.rs MTreeLine. -/
inductive MTreeLine where
  | blank
  | comment (raw : List Nat)
  | special (kind : SpecialKind) (keywords : List Keyword)
  | relative (name : List Nat) (keywords : List Keyword)
  | dotDot
  | full (path : List Nat) (keywords : List Keyword)
deriving DecidableEq

/-- The tokenizer of MTreeLine::from_bytes: split on single spaces and
discard empty words. -/
def tokenize (input : List Nat) : List (List Nat) :=
  (splitOnByte 32 input).filter (fun w => w ≠ [])

/-- The keyword loop of MTreeLine::from_bytes: each token is parsed and
pushed only when parsing succeeded (the release behavior of the
source, whose debug_assert fires only in debug builds), so failed
keywords are silently dropped. -/
def collectKeywords (parts : List (List Nat)) : List Keyword :=
  parts.filterMap (fun p => (Keyword.from_bytes p).toOption)

/-- MTreeLine::from_bytes: classify one raw line. -/
def MTreeLine.from_bytes (input : List Nat) : Except MError MTreeLine :=
  match tokenize input with
  | [] => .ok .blank
  | first :: rest =>
    if first.headD 0 = 35 then .ok (.comment input)
    else if first = [46, 46] then .ok .dotDot
    else
      let params := collectKeywords rest
      if first.headD 0 = 47 then
        match SpecialKind.from_bytes (first.drop 1) with
        | .error e => .error e
        | .ok k => .ok (.special k params)
      else if first.contains 47 then .ok (.full first params)
      else .ok (.relative first params)

/-- Model of std PathBuf: whether the path is absolute plus its list of
components.  Only the PathBuf operations the parser uses (join of a
single name, pop, file_name) are modelled. -/
structure MPath where
  absolute : Bool
  comps : List (List Nat)
deriving DecidableEq

/-- Path::new on raw bytes: absolute when the first byte is a slash,
components split on slashes, empty components dropped. -/
def parsePath (b : List Nat) : MPath :=
  ⟨b.headD 0 == 47, (splitOnByte 47 b).filter (fun c => c ≠ [])⟩

/-- PathBuf::join with a single slash-free name: appends one
component. -/
def MPath.joinName (p : MPath) (name : List Nat) : MPath :=
  ⟨p.absolute, p.comps ++ [name]⟩

/-- Joining a relative multi-component path, as the spec words
"current directory joined with" describe: components appended. -/
def MPath.joinPath (p q : MPath) : MPath :=
  ⟨p.absolute, p.comps ++ q.comps⟩

/-- PathBuf::pop: drop the last component. -/
def MPath.pop (p : MPath) : MPath :=
  ⟨p.absolute, p.comps.dropLast⟩

/-- PathBuf::file_name: the last component, unless the path has none or
terminates in a dot-dot or dot component. -/
def MPath.fileName (p : MPath) : Option (List Nat) :=
  match p.comps.getLast? with
  | none => none
  | some c => if c = [46, 46] ∨ c = [46] then none else some c

/-- lib.rs Params: the attribute aggregate.  All fields optional except
the three boolean flags. -/
structure Params where
  checksum : Option Nat := none
  device : Option MDevice := none
  contents : Option MPath := none
  flags : Option (List Nat) := none
  gid : Option Nat := none
  gname : Option (List Nat) := none
  ignore : Bool := false
  inode : Option Nat := none
  link : Option MPath := none
  md5 : Option Nat := none
  mode : Option FileMode := none
  nlink : Option Nat := none
  no_change : Bool := false
  optional : Bool := false
  resident_device : Option MDevice := none
  rmd160 : Option (List Nat) := none
  sha1 : Option (List Nat) := none
  sha256 : Option (List Nat) := none
  sha384 : Option (List Nat) := none
  sha512 : Option (List Nat) := none
  size : Option Nat := none
  time : Option Duration := none
  file_type : Option FType := none
  uid : Option Nat := none
  uname : Option (List Nat) := none
deriving DecidableEq

/-- Params::default(): everything absent, flags false. -/
def Params.default : Params := {}

/-- Params::set, translated line by line from lib.rs (including the
assignments of false for the NoChange and Optional keywords, exactly as
the source writes them). -/
def Params.set (p : Params) (keyword : Keyword) : Params :=
  match keyword with
  | .checksum cksum => { p with checksum := some cksum }
  | .deviceRef device => { p with device := some device }
  | .contents contents => { p with contents := some (parsePath contents) }
  | .flags flags => { p with flags := some flags }
  | .gid gid => { p with gid := some gid }
  | .gname gname => { p with gname := some gname }
  | .ignore => { p with ignore := true }
  | .inode inode => { p with inode := some inode }
  | .link link => { p with link := some (parsePath link) }
  | .md5 md5 => { p with md5 := some md5 }
  | .mode mode => { p with mode := some mode }
  | .nlink nlink => { p with nlink := some nlink }
  | .noChange => { p with no_change := false }
  | .optional => { p with optional := false }
  | .residentDeviceRef device => { p with resident_device := some device }
  | .rmd160 rmd160 => { p with rmd160 := some rmd160 }
  | .sha1 sha1 => { p with sha1 := some sha1 }
  | .sha256 sha256 => { p with sha256 := some sha256 }
  | .sha384 sha384 => { p with sha384 := some sha384 }
  | .sha512 sha512 => { p with sha512 := some sha512 }
  | .size size => { p with size := some size }
  | .time time => { p with time := some time }
  | .ftype ty => { p with file_type := some ty }
  | .uid uid => { p with uid := some uid }
  | .uname uname => { p with uname := some uname }

/-- Params::set_list: fold set over the keywords in order. -/
def Params.set_list (p : Params) (keywords : List Keyword) : Params :=
  keywords.foldl Params.set p

/-- lib.rs Entry. -/
structure Entry where
  path : MPath
  params : Params
deriving DecidableEq

/-- The mutable state of the MTree iterator: current working directory
and the defaults accumulated by set directives. -/
structure MState where
  cwd : MPath
  default_params : Params
deriving DecidableEq

/-- Outcome of next_entry on one classified line.  The aborts
constructor stands for a Rust panic (unimplemented for unset, and the
explicit panic on a relative line without a usable current directory);
its payload is the panic message. -/
inductive LineResult where
  | entry (e : Entry)
  | skip
  | aborts (msg : List Nat)
deriving DecidableEq

/-- MTree::next_entry after line classification, translated arm by arm
from lib.rs. -/
def processLine (st : MState) : MTreeLine → LineResult × MState
  | .blank => (.skip, st)
  | .comment _ => (.skip, st)
  | .special .set keywords =>
    (.skip, ⟨st.cwd, Params.set_list st.default_params keywords⟩)
  | .special .unset _ => (.aborts (asc "not implemented"), st)
  | .relative name keywords =>
    let params := Params.set_list st.default_params keywords
    if (MPath.fileName st.cwd).isNone then
      (.aborts (asc "relative without a current working dir"), st)
    else
      (.entry ⟨MPath.joinName st.cwd name, params⟩, st)
  | .dotDot => (.skip, ⟨MPath.pop st.cwd, st.default_params⟩)
  | .full path keywords =>
    (.entry ⟨parsePath path, Params.set_list st.default_params keywords⟩, st)

/-- One observable item of the Iterator for MTree: a yielded entry, a
yielded error, or a process abort (panic). -/
inductive RunItem where
  | ok (e : Entry)
  | err (e : MError)
  | aborted (msg : List Nat)
deriving DecidableEq

/-- The Iterator for MTree, run over a list of raw lines: parse errors
are yielded for their line and iteration continues; skipped lines yield
nothing; a panic ends the process. -/
def runMTree (st : MState) : List (List Nat) → List RunItem
  | [] => []
  | l :: rest =>
    match MTreeLine.from_bytes l with
    | .error e => .err e :: runMTree st rest
    | .ok line =>
      match processLine st line with
      | (.entry e, st2) => .ok e :: runMTree st2 rest
      | (.skip, st2) => runMTree st2 rest
      | (.aborts m, _) => [.aborted m]


/-- Running value of the left-to-right decimal accumulation, ignoring
width checks: the mathematical value a digit string denotes. -/
def decVal (acc : Nat) (l : List Nat) : Nat :=
  l.foldl (fun a b => a * 10 + (b - 48)) acc

/-- The canonical decimal encoding of a number, most significant digit
first (what the spec round-trip property calls decimal_encode; the
source has no encoder, so this is the standard base-10 rendering). -/
def encodeDec (v : Nat) : List Nat :=
  if v = 0 then [48] else (Nat.digits 10 v).reverse.map (fun d => d + 48)

/-- One lowercase hex digit. -/
def toHexDigit (d : Nat) : Nat := if d < 10 then d + 48 else d + 87

/-- The canonical lowercase hex encoding of a byte string, two digits
per byte (what the spec round-trip property calls hex_encode; the
source has no encoder). -/
def hexEncode : List Nat → List Nat
  | [] => []
  | x :: r => toHexDigit (x / 16) :: toHexDigit (x % 16) :: hexEncode r

/-- The two input lines of the worked example in the spec (claim C4). -/
def c4lines : List (List Nat) :=
  [asc "/set type=file uid=0 gid=0 mode=644",
   asc "./.BUILDINFO time=1523250074.300237174 size=8602 md5digest=13c0a46c2fb9f18a1a237d4904b6916e"]

/-- The entry the parser actually emits for the second line of c4lines:
the path is the first token taken verbatim, since it contains a slash
and the line is therefore classified Full. -/
def c4entry : Entry :=
  ⟨parsePath (asc "./.BUILDINFO"),
   { Params.default with
       file_type := some .file, uid := some 0, gid := some 0,
       mode := some ⟨6, 4, 4⟩,
       time := some ⟨1523250074, 300237174⟩, size := some 8602,
       md5 := some 0x13c0a46c2fb9f18a1a237d4904b6916e }⟩

/-- C1: the claim says a line holding a token with an unrecognized
keyword key makes classification return an error naming that key, and
that partial keyword lists never reach the resolver.  The code does the
opposite: Keyword::from_bytes does fail on the token, but
MTreeLine::from_bytes only debug_asserts and pushes the keywords that
parsed, so the line classifies successfully with the failing keyword
silently dropped, the partial keyword list reaches the resolver, and
iteration yields an entry for the very line that should have failed. -/
theorem c1_unknown_keyword_dropped :
    Keyword.from_bytes (asc "bogus_key=1")
      = .error (.unknownKey (asc "bogus_key") (asc "bogus_key=1"))
    ∧ MTreeLine.from_bytes (asc "foo bogus_key=1") = .ok (.relative (asc "foo") [])
    ∧ MTreeLine.from_bytes (asc "a/b uid=1 bogus_key=2 gid=3")
      = .ok (.full (asc "a/b") [.uid 1, .gid 3])
    ∧ runMTree ⟨⟨true, [[97]]⟩, Params.default⟩ [asc "foo bogus_key=1"]
      = [.ok ⟨⟨true, [[97], asc "foo"]⟩, Params.default⟩] :=
  ⟨rfl, rfl, rfl, rfl⟩

/-- C2: the claim says an unset directive yields an explicit hard error
returned as a value for that line and that the parser never panics.
The code instead reaches the unimplemented macro, a panic that aborts
the process: no error value is ever produced for the line, and
iteration over later lines is cut off. -/
theorem c2_unset_aborts :
    MTreeLine.from_bytes (asc "/unset") = .ok (.special .unset [])
    ∧ (∀ (st : MState) (ks : List Keyword),
        processLine st (.special .unset ks) = (.aborts (asc "not implemented"), st))
    ∧ runMTree ⟨⟨true, [[97]]⟩, Params.default⟩ [asc "/unset", asc "x/y uid=1"]
      = [.aborted (asc "not implemented")] :=
  ⟨rfl, fun _ _ => rfl, rfl⟩

/-- C3: the claim (and the doc comment on Params in the source) says
merging the value-less keywords ignore, nochange and optional sets the
matching flag to true.  The code sets ignore to true but sets no_change
and optional to false, so the presence of nochange or optional is never
recorded: an entry whose line carries all three markers comes out with
no_change and optional still false. -/
theorem c3_flag_keywords :
    (∀ p : Params,
      (Params.set p .ignore).ignore = true
      ∧ (Params.set p .noChange).no_change = false
      ∧ (Params.set p .optional).optional = false)
    ∧ Keyword.from_bytes (asc "nochange") = .ok .noChange
    ∧ Keyword.from_bytes (asc "optional") = .ok .optional
    ∧ runMTree ⟨⟨true, [[97]]⟩, Params.default⟩ [asc "x/y nochange optional ignore"]
      = [.ok ⟨⟨false, [[120], [121]]⟩, { Params.default with ignore := true }⟩] :=
  ⟨fun _ => ⟨rfl, rfl, rfl⟩, rfl, rfl, rfl⟩

/-- C4 counterexample: processing the worked example yields exactly one
entry, and that entry's path is not the current directory joined with
./.BUILDINFO (here the current directory is the absolute path /a): the
first token contains a slash, so the line is a Full entry and the path
is taken verbatim. -/
theorem c4_counterexample :
    runMTree ⟨⟨true, [[97]]⟩, Params.default⟩ c4lines = [.ok c4entry]
    ∧ c4entry.path ≠ MPath.joinPath ⟨true, [[97]]⟩ (parsePath (asc "./.BUILDINFO")) :=
  ⟨rfl, by decide⟩

/-- C4 as amended: for every starting directory, the directive line
followed by the entry line yields exactly one Entry whose path is the
token ./.BUILDINFO taken verbatim (a Full line, not joined to the
current directory), whose file_type is file, uid and gid are 0, mode is
octal 644, size is 8602, time is 1523250074 seconds plus 300237174
nanoseconds past the epoch, and md5 is the 128-bit value decoded from
the 32-char hex string. -/
theorem c4_worked_example (cwd : MPath) :
    runMTree ⟨cwd, Params.default⟩ c4lines = [.ok c4entry] := rfl

/-- C5: resolver frame conditions, one equation per classification:
entry lines emit the defaults with the line's keywords folded on top in
order and leave the whole state unchanged; only a set directive changes
the default params (keeping the directory) and only a dot-dot line
changes the directory (keeping the defaults); blank and comment lines
change nothing; and folding is left-to-right, so a later keyword of the
same field overwrites an earlier one. -/
theorem c5_resolver_frame :
    ∀ (st : MState) (path name : List Nat) (ks : List Keyword),
      processLine st (.full path ks)
        = (.entry ⟨parsePath path, Params.set_list st.default_params ks⟩, st)
      ∧ processLine st (.relative name ks)
        = (if (MPath.fileName st.cwd).isNone then
            (.aborts (asc "relative without a current working dir"), st)
          else
            (.entry ⟨MPath.joinName st.cwd name, Params.set_list st.default_params ks⟩, st))
      ∧ processLine st (.special .set ks)
        = (.skip, ⟨st.cwd, Params.set_list st.default_params ks⟩)
      ∧ processLine st (.special .unset ks) = (.aborts (asc "not implemented"), st)
      ∧ processLine st .dotDot = (.skip, ⟨MPath.pop st.cwd, st.default_params⟩)
      ∧ processLine st .blank = (.skip, st)
      ∧ processLine st (.comment path) = (.skip, st)
      ∧ (∀ (p : Params) (k : Keyword),
          Params.set_list p (ks ++ [k]) = (Params.set_list p ks).set k) := by
  intro st path name ks
  refine ⟨rfl, rfl, rfl, rfl, rfl, rfl, rfl, ?_⟩
  intro p k
  simp [Params.set_list]

/-- C10: decimal decoding of the empty byte string succeeds with 0 (the
accumulator loop never runs), so keyword tokens with an empty value
after the equals sign decode to the attribute value 0. -/
theorem c10_empty_decimal :
    u64_from_dec [] = .ok 0
    ∧ Keyword.from_bytes (asc "size=") = .ok (.size 0)
    ∧ Keyword.from_bytes (asc "uid=") = .ok (.uid 0)
    ∧ Keyword.from_bytes (asc "gid=") = .ok (.gid 0)
    ∧ MTreeLine.from_bytes (asc "a/b size= uid=")
      = .ok (.full (asc "a/b") [.size 0, .uid 0]) :=
  ⟨rfl, rfl, rfl, rfl, rfl⟩

/-- Helper for C6: whenever the first non-empty token of a line is
exactly dot-dot, classification returns DotDot without looking at any
later token. -/
theorem tokenize_head_dotdot (input : List Nat)
    (h : (tokenize input).head? = some [46, 46]) :
    MTreeLine.from_bytes input = .ok .dotDot := by
  unfold MTreeLine.from_bytes
  cases htok : tokenize input with
  | nil => rw [htok] at h; simp at h
  | cons f t =>
    rw [htok] at h
    simp only [List.head?_cons, Option.some.injEq] at h
    subst h
    rfl

/-- C6: a line whose first non-empty token is exactly dot-dot is
classified DotDot whatever follows (trailing tokens are never decoded
and never an error); processing DotDot pops the last component off the
current directory and keeps the defaults; and a relative line processed
in the popped state resolves against the directory one level above:
its path is cs ++ [name] where without the pop it would have been
(cs ++ [c]) ++ [name]. -/
theorem c6_dotdot :
    (∀ input : List Nat, (tokenize input).head? = some [46, 46] →
      MTreeLine.from_bytes input = .ok .dotDot)
    ∧ (∀ st : MState, processLine st .dotDot = (.skip, ⟨MPath.pop st.cwd, st.default_params⟩))
    ∧ (∀ (ab : Bool) (cs : List (List Nat)) (c : List Nat),
        MPath.pop ⟨ab, cs ++ [c]⟩ = ⟨ab, cs⟩)
    ∧ (∀ (ab : Bool) (cs : List (List Nat)) (c name : List Nat) (d : Params) (ks : List Keyword),
        MPath.fileName ⟨ab, cs⟩ ≠ none →
        processLine ⟨MPath.pop ⟨ab, cs ++ [c]⟩, d⟩ (.relative name ks)
          = (.entry ⟨⟨ab, cs ++ [name]⟩, Params.set_list d ks⟩, ⟨MPath.pop ⟨ab, cs ++ [c]⟩, d⟩)
        ∧ MPath.joinName ⟨ab, cs ++ [c]⟩ name = ⟨ab, (cs ++ [c]) ++ [name]⟩) := by
  have hpop : ∀ (ab : Bool) (cs : List (List Nat)) (c : List Nat),
      MPath.pop ⟨ab, cs ++ [c]⟩ = ⟨ab, cs⟩ := by
    intro ab cs c
    simp [MPath.pop]
  refine ⟨tokenize_head_dotdot, fun st => rfl, hpop, ?_⟩
  intro ab cs c name d ks h
  rw [hpop]
  cases hf : MPath.fileName ⟨ab, cs⟩ with
  | none => exact absurd hf h
  | some v =>
    refine ⟨?_, rfl⟩
    simp [processLine, hf, MPath.joinName]

/-- Witness for C6 at concrete inputs: the line dot-dot followed by
junk tokens classifies as DotDot, and a relative line f processed after
popping /a/b resolves to /a/f. -/
theorem c6_dotdot_witness :
    MTreeLine.from_bytes (asc ".. type=dir junk") = .ok .dotDot
    ∧ processLine ⟨MPath.pop ⟨true, [[97], [98]]⟩, Params.default⟩ (.relative [102] [])
      = (.entry ⟨⟨true, [[97], [102]]⟩, Params.default⟩,
         ⟨MPath.pop ⟨true, [[97], [98]]⟩, Params.default⟩) :=
  ⟨c6_dotdot.1 (asc ".. type=dir junk") rfl,
   (c6_dotdot.2.2.2 true [[97]] [98] [102] Params.default [] (by decide)).1⟩

theorem decVal_nil (acc : Nat) : decVal acc [] = acc := rfl

theorem decVal_cons (acc b : Nat) (r : List Nat) :
    decVal acc (b :: r) = decVal (acc * 10 + (b - 48)) r := rfl

theorem decVal_append (l1 l2 : List Nat) :
    ∀ acc, decVal acc (l1 ++ l2) = decVal (decVal acc l1) l2 := by
  intro acc
  simp [decVal, List.foldl_append]

theorem decVal_snoc (l : List Nat) (y acc : Nat) :
    decVal acc (l ++ [y]) = (decVal acc l) * 10 + (y - 48) := by
  rw [decVal_append]
  rfl

theorem decVal_rev_digits :
    ∀ (L : List Nat) (acc : Nat),
      decVal acc (L.reverse.map (fun d => d + 48))
        = acc * 10 ^ L.length + Nat.ofDigits 10 L := by
  intro L
  induction L with
  | nil => intro acc; simp [decVal, Nat.ofDigits_nil]
  | cons d L ih =>
    intro acc
    rw [List.reverse_cons, List.map_append]
    simp only [List.map_cons, List.map_nil]
    rw [decVal_snoc, ih acc, Nat.ofDigits_cons]
    simp only [Nat.cast_id, List.length_cons]
    have hd48 : d + 48 - 48 = d := by omega
    rw [hd48, pow_succ]
    ring

theorem from_dec_ch_digit {b : Nat} (hb : 48 ≤ b ∧ b ≤ 57) :
    from_dec_ch b = some (b - 48) := by
  unfold from_dec_ch; rw [if_pos hb]

theorem from_dec_ch_some {b d : Nat} (h : from_dec_ch b = some d) :
    (48 ≤ b ∧ b ≤ 57) ∧ d = b - 48 := by
  unfold from_dec_ch at h
  split at h
  · exact ⟨by assumption, by injection h with h2; exact h2.symm⟩
  · cases h

theorem decVal_mono (l : List Nat) : ∀ acc : Nat, acc ≤ decVal acc l := by
  induction l with
  | nil => intro acc; exact Nat.le_refl _
  | cons b r ih =>
    intro acc
    have h0 : acc * 1 ≤ acc * 10 := Nat.mul_le_mul_left acc (by norm_num)
    have h1 : acc ≤ acc * 10 + (b - 48) := by omega
    exact Nat.le_trans h1 (ih _)

theorem fromDecGo_ok_of (w : Nat) (input : List Nat) :
    ∀ (l : List Nat) (idx acc : Nat), (∀ b ∈ l, 48 ≤ b ∧ b ≤ 57) →
      decVal acc l < 2 ^ w →
      fromDecGo w input l idx acc = .ok (decVal acc l) := by
  intro l
  induction l with
  | nil => intro idx acc _ _; rfl
  | cons b r ih =>
    intro idx acc hd hbound
    have hb := hd b (List.mem_cons_self _ _)
    have hstep : decVal acc (b :: r) = decVal (acc * 10 + (b - 48)) r := rfl
    have hmono : acc * 10 + (b - 48) ≤ decVal acc (b :: r) := by
      rw [hstep]; exact decVal_mono r _
    have g2 : acc * 10 + (b - 48) < 2 ^ w := lt_of_le_of_lt hmono hbound
    have g1 : acc * 10 < 2 ^ w := by omega
    unfold fromDecGo
    simp only [from_dec_ch_digit hb]
    rw [if_pos g1, if_pos g2, hstep]
    exact ih _ _ (fun x hx => hd x (List.mem_cons_of_mem _ hx)) (by rw [← hstep]; exact hbound)

theorem fromDecGo_ok_inv (w : Nat) (input : List Nat) :
    ∀ (l : List Nat) (idx acc v : Nat), acc < 2 ^ w →
      fromDecGo w input l idx acc = .ok v →
      (∀ b ∈ l, 48 ≤ b ∧ b ≤ 57) ∧ v = decVal acc l ∧ v < 2 ^ w := by
  intro l
  induction l with
  | nil =>
    intro idx acc v hacc h
    unfold fromDecGo at h
    injection h with h
    subst h
    exact ⟨by simp, rfl, hacc⟩
  | cons b r ih =>
    intro idx acc v hacc h
    unfold fromDecGo at h
    cases hb : from_dec_ch b with
    | none => simp only [hb] at h; cases h
    | some d =>
      simp only [hb] at h
      by_cases g1 : acc * 10 < 2 ^ w
      · rw [if_pos g1] at h
        by_cases g2 : acc * 10 + d < 2 ^ w
        · rw [if_pos g2] at h
          obtain ⟨hall, hv, hlt⟩ := ih _ _ _ g2 h
          obtain ⟨hbd, hdd⟩ := from_dec_ch_some hb
          subst hdd
          refine ⟨?_, hv, hlt⟩
          intro x hx
          rcases List.mem_cons.mp hx with hx | hx
          · subst hx; exact hbd
          · exact hall x hx
        · rw [if_neg g2] at h; cases h
      · rw [if_neg g1] at h; cases h

theorem fromDecGo_firstBad (w : Nat) (input : List Nat) :
    ∀ (p : List Nat) (b : Nat) (s : List Nat) (idx acc : Nat),
      (∀ x ∈ p, 48 ≤ x ∧ x ≤ 57) → ¬(48 ≤ b ∧ b ≤ 57) → decVal acc p < 2 ^ w →
      fromDecGo w input (p ++ b :: s) idx acc
        = .error (.decBadChar input (idx + p.length)) := by
  intro p
  induction p with
  | nil =>
    intro b s idx acc _ hbad _
    have hbn : from_dec_ch b = none := by unfold from_dec_ch; rw [if_neg hbad]
    unfold fromDecGo
    simp only [List.nil_append, hbn, List.length_nil, Nat.add_zero]
  | cons x p ih =>
    intro b s idx acc hd hbad hbound
    have hx := hd x (List.mem_cons_self _ _)
    have hstep : decVal acc (x :: p) = decVal (acc * 10 + (x - 48)) p := rfl
    have hmono : acc * 10 + (x - 48) ≤ decVal acc (x :: p) := by
      rw [hstep]; exact decVal_mono p _
    have g2 : acc * 10 + (x - 48) < 2 ^ w := lt_of_le_of_lt hmono hbound
    have g1 : acc * 10 < 2 ^ w := by omega
    show fromDecGo w input (x :: (p ++ b :: s)) idx acc = _
    unfold fromDecGo
    simp only [from_dec_ch_digit hx]
    rw [if_pos g1, if_pos g2]
    rw [ih b s (idx + 1) _ (fun y hy => hd y (List.mem_cons_of_mem _ hy)) hbad
        (by rw [← hstep]; exact hbound)]
    congr 2
    simp only [List.length_cons]
    omega

theorem fromDecGo_allDigits_cases (w : Nat) (input : List Nat) :
    ∀ (l : List Nat) (idx acc : Nat), (∀ b ∈ l, 48 ≤ b ∧ b ≤ 57) →
      (∃ v, fromDecGo w input l idx acc = .ok v)
      ∨ fromDecGo w input l idx acc = .error .decShiftOverflow
      ∨ fromDecGo w input l idx acc = .error .decAddOverflow := by
  intro l
  induction l with
  | nil => intro idx acc _; exact Or.inl ⟨acc, rfl⟩
  | cons b r ih =>
    intro idx acc hd
    have hb := hd b (List.mem_cons_self _ _)
    unfold fromDecGo
    simp only [from_dec_ch_digit hb]
    by_cases g1 : acc * 10 < 2 ^ w
    · rw [if_pos g1]
      by_cases g2 : acc * 10 + (b - 48) < 2 ^ w
      · rw [if_pos g2]
        exact ih _ _ (fun x hx => hd x (List.mem_cons_of_mem _ hx))
      · rw [if_neg g2]
        exact Or.inr (Or.inr rfl)
    · rw [if_neg g1]
      exact Or.inr (Or.inl rfl)

theorem decVal_encodeDec (v : Nat) : decVal 0 (encodeDec v) = v := by
  unfold encodeDec
  split
  · subst v; rfl
  · rw [decVal_rev_digits]
    simp [Nat.ofDigits_digits]

theorem encodeDec_digits (v : Nat) : ∀ b ∈ encodeDec v, 48 ≤ b ∧ b ≤ 57 := by
  intro b hb
  unfold encodeDec at hb
  split at hb
  · simp at hb; omega
  · simp only [List.mem_map, List.mem_reverse] at hb
    obtain ⟨d, hd, rfl⟩ := hb
    have := Nat.digits_lt_base (by norm_num) hd
    omega

/-- C7: decimal decoding at width 64: decoding the canonical decimal
encoding of any value below 2 to the 64 returns that value; any input
holding a non-digit byte fails; the first non-digit reached (its
digit-prefix still within the width) is reported with its exact offset;
and all-digit inputs denoting a value at or above 2 to the 64 fail with
a checked multiply or add overflow error rather than wrapping. -/
theorem c7_decimal :
    (∀ v : Nat, v < 2 ^ 64 → u64_from_dec (encodeDec v) = .ok v)
    ∧ (∀ input : List Nat, (∃ b ∈ input, ¬(48 ≤ b ∧ b ≤ 57)) →
        ∀ v, u64_from_dec input ≠ .ok v)
    ∧ (∀ (p : List Nat) (b : Nat) (s : List Nat),
        (∀ x ∈ p, 48 ≤ x ∧ x ≤ 57) → ¬(48 ≤ b ∧ b ≤ 57) → decVal 0 p < 2 ^ 64 →
        u64_from_dec (p ++ b :: s) = .error (.decBadChar (p ++ b :: s) p.length))
    ∧ (∀ input : List Nat, (∀ b ∈ input, 48 ≤ b ∧ b ≤ 57) → 2 ^ 64 ≤ decVal 0 input →
        u64_from_dec input = .error .decShiftOverflow
        ∨ u64_from_dec input = .error .decAddOverflow) := by
  refine ⟨?_, ?_, ?_, ?_⟩
  · intro v hv
    have h := fromDecGo_ok_of 64 (encodeDec v) (encodeDec v) 0 0 (encodeDec_digits v)
      (by rw [decVal_encodeDec]; exact hv)
    show fromDecGo 64 (encodeDec v) (encodeDec v) 0 0 = .ok v
    rw [h, decVal_encodeDec]
  · intro input hex v hok
    obtain ⟨hall, _, _⟩ :=
      fromDecGo_ok_inv 64 input input 0 0 v (by positivity) hok
    obtain ⟨b, hb, hbad⟩ := hex
    exact hbad (hall b hb)
  · intro p b s hp hb hbound
    have h := fromDecGo_firstBad 64 (p ++ b :: s) p b s 0 0 hp hb hbound
    simpa using h
  · intro input hall hge
    rcases fromDecGo_allDigits_cases 64 input input 0 0 hall with ⟨v, hv⟩ | h | h
    · obtain ⟨_, hveq, hvlt⟩ :=
        fromDecGo_ok_inv 64 input input 0 0 v (by positivity) hv
      subst hveq
      omega
    · exact Or.inl h
    · exact Or.inr h

/-- Witness for C7 at concrete inputs: a round-trip at 1523250074, a
rejected input holding a letter, the offset-2 report for the input 12x4,
and the overflow failure of twenty-one nines. -/
theorem c7_decimal_witness :
    u64_from_dec (encodeDec 1523250074) = .ok 1523250074
    ∧ u64_from_dec (asc "1a") ≠ .ok 1
    ∧ u64_from_dec (asc "12" ++ 120 :: asc "4")
      = .error (.decBadChar (asc "12" ++ 120 :: asc "4") (asc "12").length)
    ∧ (u64_from_dec (asc "999999999999999999999") = .error .decShiftOverflow
       ∨ u64_from_dec (asc "999999999999999999999") = .error .decAddOverflow) :=
  ⟨c7_decimal.1 1523250074 (by norm_num),
   c7_decimal.2.1 (asc "1a") (by decide) 1,
   c7_decimal.2.2.1 (asc "12") 120 (asc "4") (by decide) (by decide) (by decide),
   c7_decimal.2.2.2 (asc "999999999999999999999") (by decide) (by decide)⟩

theorem hex_nibble_roundtrip : ∀ d : Nat, d < 16 → from_hex_ch (toHexDigit d) = some d := by
  decide

theorem hexEncode_length (b : List Nat) : (hexEncode b).length = 2 * b.length := by
  induction b with
  | nil => rfl
  | cons x r ih =>
    show (toHexDigit (x / 16) :: toHexDigit (x % 16) :: hexEncode r).length = _
    simp only [List.length_cons, ih, List.length_cons]
    omega

theorem hexPairs_encode (input : List Nat) :
    ∀ (b : List Nat) (idx : Nat), (∀ x ∈ b, x < 256) →
      hexPairs input (hexEncode b) idx = .ok b := by
  intro b
  induction b with
  | nil => intro idx _; rfl
  | cons x r ih =>
    intro idx hx
    have hxx := hx x (List.mem_cons_self _ _)
    have hdiv : x / 16 < 16 := by omega
    have hmod : x % 16 < 16 := by omega
    show hexPairs input (toHexDigit (x / 16) :: toHexDigit (x % 16) :: hexEncode r) idx = _
    unfold hexPairs
    simp only [hex_nibble_roundtrip _ hdiv, hex_nibble_roundtrip _ hmod]
    rw [ih _ (fun y hy => hx y (List.mem_cons_of_mem _ hy))]
    simp only [Except.map]
    rw [show x / 16 * 16 + x % 16 = x from by omega]

theorem hexPairs_firstBad (input : List Nat) :
    ∀ (p : List Nat) (c : Nat) (s : List Nat) (idx : Nat),
      (∀ x ∈ p, (from_hex_ch x).isSome = true) → from_hex_ch c = none →
      (p ++ c :: s).length % 2 = 0 →
      hexPairs input (p ++ c :: s) idx = .error (.hexBadChar (2 * idx + p.length) input)
  | [], c, s, idx => fun _ hc hlen => by
    cases s with
    | nil => simp at hlen
    | cons c1 s1 =>
      show hexPairs input (c :: c1 :: s1) idx = _
      unfold hexPairs
      simp only [hc, List.length_nil, Nat.add_zero]
  | [x], c, s, idx => fun hp hc _ => by
    obtain ⟨v, hv⟩ := Option.isSome_iff_exists.mp (hp x (List.mem_cons_self _ _))
    show hexPairs input (x :: c :: s) idx = _
    unfold hexPairs
    simp only [hv, hc, List.length_cons, List.length_nil]
  | x :: y :: p, c, s, idx => fun hp hc hlen => by
    obtain ⟨vx, hvx⟩ := Option.isSome_iff_exists.mp (hp x (List.mem_cons_self _ _))
    obtain ⟨vy, hvy⟩ :=
      Option.isSome_iff_exists.mp (hp y (List.mem_cons_of_mem _ (List.mem_cons_self _ _)))
    have hlen2 : (p ++ c :: s).length % 2 = 0 := by
      simp only [List.cons_append, List.length_cons] at hlen
      omega
    have hp2 : ∀ z ∈ p, (from_hex_ch z).isSome = true := fun z hz =>
      hp z (List.mem_cons_of_mem _ (List.mem_cons_of_mem _ hz))
    show hexPairs input (x :: y :: (p ++ c :: s)) idx = _
    unfold hexPairs
    simp only [hvx, hvy]
    rw [hexPairs_firstBad input p c s (idx + 1) hp2 hc hlen2]
    simp only [Except.map]
    rw [show 2 * (idx + 1) + p.length = 2 * idx + (x :: y :: p).length from by
      simp only [List.length_cons]; omega]

/-- C8: hex round-trip and error reporting for the fixed-size array
decoders: decoding the 2N-character hex encoding of any N-byte string
returns it unchanged; any input whose length is not exactly 2N fails
with an error reporting expected versus actual length; and an input of
the right length whose first non-hex byte sits after a hex-only prefix
fails with an error carrying the exact offset of that byte. -/
theorem c8_hex :
    (∀ b : List Nat, (∀ x ∈ b, x < 256) → hexDecode b.length (hexEncode b) = .ok b)
    ∧ (∀ (size : Nat) (input : List Nat), input.length ≠ 2 * size →
        hexDecode size input = .error (.hexBadLen input.length size input))
    ∧ (∀ (size : Nat) (p : List Nat) (c : Nat) (s : List Nat),
        (∀ x ∈ p, (from_hex_ch x).isSome = true) → from_hex_ch c = none →
        (p ++ c :: s).length = 2 * size →
        hexDecode size (p ++ c :: s) = .error (.hexBadChar p.length (p ++ c :: s))) := by
  refine ⟨?_, ?_, ?_⟩
  · intro b hb
    unfold hexDecode
    rw [hexEncode_length, if_pos rfl]
    exact hexPairs_encode _ b 0 hb
  · intro size input h
    unfold hexDecode
    rw [if_neg h]
  · intro size p c s hp hc hlen
    unfold hexDecode
    rw [if_pos hlen]
    have := hexPairs_firstBad (p ++ c :: s) p c s 0 hp hc (by omega)
    simpa using this

/-- Witness for C8 at concrete inputs: a 16-byte round-trip, a length-2
input rejected for size 16, and a 32-char input whose single non-hex
byte g at offset 31 is reported. -/
theorem c8_hex_witness :
    hexDecode 16 (hexEncode (List.range 16)) = .ok (List.range 16)
    ∧ hexDecode 16 (asc "ab") = .error (.hexBadLen 2 16 (asc "ab"))
    ∧ hexDecode 16 (asc "0123456789abcdef0123456789abcde" ++ 103 :: [])
      = .error (.hexBadChar 31 (asc "0123456789abcdef0123456789abcde" ++ 103 :: [])) :=
  ⟨by
    have := c8_hex.1 (List.range 16) (by decide)
    simpa using this,
   c8_hex.2.1 16 (asc "ab") (by decide),
   by
    have := c8_hex.2.2 16 (asc "0123456789abcdef0123456789abcde") 103 [] (by decide)
      (by decide) (by decide)
    simpa using this⟩

theorem from_oct_ch_oct {b : Nat} (hb : 48 ≤ b ∧ b ≤ 55) :
    from_oct_ch b = some (b - 48) := by
  unfold from_oct_ch; rw [if_pos hb]

theorem mode_sym_roundtrip :
    ∀ o : Nat, o < 8 → ∀ g : Nat, g < 8 → ∀ t : Nat, t < 8 →
      modeOfSymbolic (displayFileMode ⟨o, g, t⟩) = some ⟨o, g, t⟩ := by
  decide

theorem fileModeOpt_none (input : List Nat)
    (h : ¬(input.length = 3 ∧ ∀ x ∈ input, 48 ≤ x ∧ x ≤ 55)) :
    fileModeOpt input = none := by
  rcases input with _ | ⟨a, _ | ⟨b, _ | ⟨c, _ | ⟨d, t⟩⟩⟩⟩
  · rfl
  · rfl
  · rfl
  · push_neg at h
    obtain ⟨x, hx, hbad⟩ := h rfl
    have hxn : from_oct_ch x = none := by
      unfold from_oct_ch
      rw [if_neg (by omega)]
    simp only [List.mem_cons, List.not_mem_nil, or_false] at hx
    rcases hx with rfl | rfl | rfl
    · simp [fileModeOpt, hxn]
    · cases hoa : from_oct_ch a <;> simp [fileModeOpt, hoa, hxn]
    · cases hoa : from_oct_ch a <;> cases hob : from_oct_ch b <;>
        simp [fileModeOpt, hoa, hob, hxn]
  · rfl

/-- C9: FileMode parsing succeeds exactly on inputs of three octal
digit bytes, every other input (symbolic rwx strings included) failing
with the bad-mode error quoting the input; and every successfully
parsed mode survives the round trip through its canonical symbolic
display back to the same three permission bit sets. -/
theorem c9_filemode :
    (∀ a b c : Nat, (48 ≤ a ∧ a ≤ 55) → (48 ≤ b ∧ b ≤ 55) → (48 ≤ c ∧ c ≤ 55) →
      FileMode.from_bytes [a, b, c] = .ok ⟨a - 48, b - 48, c - 48⟩
      ∧ modeOfSymbolic (displayFileMode ⟨a - 48, b - 48, c - 48⟩)
        = some ⟨a - 48, b - 48, c - 48⟩)
    ∧ (∀ input : List Nat, ¬(input.length = 3 ∧ ∀ x ∈ input, 48 ≤ x ∧ x ≤ 55) →
        FileMode.from_bytes input = .error (.badMode input)) := by
  constructor
  · intro a b c ha hb hc
    constructor
    · unfold FileMode.from_bytes fileModeOpt
      simp [from_oct_ch_oct ha, from_oct_ch_oct hb, from_oct_ch_oct hc]
    · exact mode_sym_roundtrip _ (by omega) _ (by omega) _ (by omega)
  · intro input h
    unfold FileMode.from_bytes
    rw [fileModeOpt_none input h]

/-- Witness for C9 at concrete inputs: octal 644 parses and round-trips
through rw-r--r--, while the symbolic string rwxr--r-- and the 4-digit
string 0644 are rejected. -/
theorem c9_filemode_witness :
    FileMode.from_bytes (asc "644") = .ok ⟨6, 4, 4⟩
    ∧ modeOfSymbolic (displayFileMode ⟨6, 4, 4⟩) = some ⟨6, 4, 4⟩
    ∧ FileMode.from_bytes (asc "rwxr--r--") = .error (.badMode (asc "rwxr--r--"))
    ∧ FileMode.from_bytes (asc "0644") = .error (.badMode (asc "0644")) :=
  ⟨(c9_filemode.1 54 52 52 (by decide) (by decide) (by decide)).1,
   (c9_filemode.1 54 52 52 (by decide) (by decide) (by decide)).2,
   c9_filemode.2 (asc "rwxr--r--") (by decide),
   c9_filemode.2 (asc "0644") (by decide)⟩
